import Mathlib

/-!
Shallow embedding of the room/progress subsystem of the backend repository
(`Prototype/models/room.py`, `Prototype/models/user.py`,
`Prototype/routes/rooms.py`, `Prototype/routes/progress.py`) and of the
tile-scheduling wrapper (`model/compute.py`), together with theorems that
settle the specification claims about them.

The SQLite database state is modelled as lists of rows.  The schema
(`Prototype/database.py`) enforces UNIQUE(user_id, module_number) on
`user_progress`, UNIQUE(room_id, user_id) on `room_members`,
UNIQUE(room_id, module_number) on `room_progress`, foreign keys, and
CHECK(module_number BETWEEN 1 AND 6); inserts that would violate these
constraints raise and the source wraps them in `try/except` blocks, which
is modelled by guarded insert-if-valid definitions.
-/

/-- A row of the `users` table (the columns the modelled code reads). -/
structure UserRow where
  id : Nat
  role : String
  current_room_id : Option Nat
  deriving DecidableEq

/-- A row of the `rooms` table (the columns the modelled code reads). -/
structure RoomRow where
  id : Nat
  room_code : String
  name : String
  deriving DecidableEq

/-- The database state: `user_progress` rows are (user_id, module_number)
pairs, `room_members` rows are (room_id, user_id) pairs, and
`room_progress` rows are (room_id, module_number) pairs. -/
@[ext]
structure DB where
  users : List UserRow
  rooms : List RoomRow
  user_progress : List (Nat × Nat)
  room_members : List (Nat × Nat)
  room_progress : List (Nat × Nat)
  deriving DecidableEq

/-- `SELECT ... FROM users WHERE id = ?` returns a row. -/
def userExists (db : DB) (user_id : Nat) : Bool :=
  db.users.any (fun u => u.id == user_id)

/-- `SELECT ... FROM rooms WHERE id = ?` returns a row. -/
def roomExists (db : DB) (room_id : Nat) : Bool :=
  db.rooms.any (fun r => r.id == room_id)

namespace User

/-- `User.find_by_id`: `SELECT * FROM users WHERE id = ?`. -/
def find_by_id (db : DB) (user_id : Nat) : Option UserRow :=
  db.users.find? (fun u => u.id == user_id)

/-- `User.mark_module_complete`: `INSERT INTO user_progress ...` guarded by
the UNIQUE(user_id, module_number) constraint, the CHECK on the module
range and the foreign key on user_id; any constraint violation is caught
by the bare `except` and reported as `False`. -/
def mark_module_complete (db : DB) (user_id module_number : Nat) : Bool × DB :=
  if userExists db user_id = true ∧ 1 ≤ module_number ∧ module_number ≤ 6 ∧
      (user_id, module_number) ∉ db.user_progress then
    (true, { db with user_progress := db.user_progress ++ [(user_id, module_number)] })
  else
    (false, db)

end User

namespace Room

/-- The protected demo room's fixed code (`Room.DEMO_ROOM_CODE`). -/
def DEMO_ROOM_CODE : String := "DEMO01"

/-- `Room.find_by_id`: `SELECT * FROM rooms WHERE id = ?`. -/
def find_by_id (db : DB) (room_id : Nat) : Option RoomRow :=
  db.rooms.find? (fun r => r.id == room_id)

/-- `Room.is_demo_room`: the room exists and its code is the demo code. -/
def is_demo_room (db : DB) (room_id : Nat) : Bool :=
  match find_by_id db room_id with
  | some r => r.room_code == DEMO_ROOM_CODE
  | none => false

/-- `Room.get_members`: `SELECT u.id ... FROM room_members rm JOIN users u
ON rm.user_id = u.id WHERE rm.room_id = ?`, reduced to the member user ids
(the join drops membership rows whose user does not exist). -/
def get_members (db : DB) (room_id : Nat) : List Nat :=
  ((db.room_members.filter (fun p => p.1 == room_id)).filter
    (fun p => userExists db p.2)).map (fun p => p.2)

/-- `Room.add_member`: `INSERT INTO room_members ...` then `UPDATE users SET
current_room_id = ?`; a constraint violation on the insert (duplicate
membership or missing room/user foreign key) is caught and reported as
`False` without running the update. -/
def add_member (db : DB) (room_id user_id : Nat) : Bool × DB :=
  if roomExists db room_id = true ∧ userExists db user_id = true ∧
      (room_id, user_id) ∉ db.room_members then
    (true, { db with
      room_members := db.room_members ++ [(room_id, user_id)],
      users := db.users.map (fun u =>
        if u.id == user_id then { u with current_room_id := some room_id } else u) })
  else
    (false, db)

/-- `Room.remove_member`: `DELETE FROM room_members WHERE room_id = ? AND
user_id = ?` then `UPDATE users SET current_room_id = NULL WHERE id = ?`
(the update runs unconditionally). -/
def remove_member (db : DB) (room_id user_id : Nat) : DB :=
  { db with
    room_members := db.room_members.filter (fun p => !(p.1 == room_id && p.2 == user_id)),
    users := db.users.map (fun u =>
      if u.id == user_id then { u with current_room_id := none } else u) }

/-- The `COUNT(DISTINCT user_id) FROM user_progress up JOIN room_members rm
ON up.user_id = rm.user_id WHERE rm.room_id = ? AND up.module_number = ?`
query inside `check_and_update_room_progress` (note: no join with `users`). -/
def completed_count (db : DB) (room_id module_number : Nat) : Nat :=
  (((db.room_members.filter (fun p => p.1 == room_id)).map (fun p => p.2)).filter
    (fun u => decide ((u, module_number) ∈ db.user_progress))).dedup.length

/-- `Room.get_room_progress`: the module numbers recorded room-complete for
the room. -/
def get_room_progress (db : DB) (room_id : Nat) : List Nat :=
  (db.room_progress.filter (fun p => p.1 == room_id)).map (fun p => p.2)

/-- The guarded `INSERT INTO room_progress (room_id, module_number)` inside
`check_and_update_room_progress`: the UNIQUE(room_id, module_number)
constraint, the CHECK on the module range and the room foreign key make a
conflicting insert fail, and the `try/except: pass` ignores the failure. -/
def insert_room_progress (db : DB) (room_id module_number : Nat) : DB :=
  if roomExists db room_id = true ∧ 1 ≤ module_number ∧ module_number ≤ 6 ∧
      (room_id, module_number) ∉ db.room_progress then
    { db with room_progress := db.room_progress ++ [(room_id, module_number)] }
  else
    db

/-- `Room.reset_demo_room`: delete all `room_progress` rows of the room,
then delete every `user_progress` row of every current member. -/
def reset_demo_room (db : DB) (room_id : Nat) : DB :=
  if is_demo_room db room_id = true then
    let db1 :=
      { db with room_progress := db.room_progress.filter (fun p => !(p.1 == room_id)) }
    let members := get_members db1 room_id
    { db1 with
      user_progress := db1.user_progress.filter (fun p => !(members.contains p.1)) }
  else
    db

/-- `Room.delete_room`: silently returns for the demo room; otherwise nulls
every member's `current_room_id`, deletes the room's `room_progress` rows,
its `room_members` rows, and the room row itself. -/
def delete_room (db : DB) (room_id : Nat) : DB :=
  if is_demo_room db room_id = true then
    db
  else
    let members := get_members db room_id
    { db with
      users := db.users.map (fun u =>
        if members.contains u.id then { u with current_room_id := none } else u),
      room_progress := db.room_progress.filter (fun p => !(p.1 == room_id)),
      room_members := db.room_members.filter (fun p => !(p.1 == room_id)),
      rooms := db.rooms.filter (fun r => !(r.id == room_id)) }

end Room

/-- The dictionary returned by `check_and_update_room_progress`.  The source
returns `{'module_complete': b1, 'room_complete': b2}` and only on the
demo-reset path adds `'is_demo': True`; the caller reads the key with
`.get('is_demo')`, for which the absent key and `False` coincide, so the
absent key is modelled as `is_demo = false`. -/
structure RoomResult where
  module_complete : Bool
  room_complete : Bool
  is_demo : Bool
  deriving DecidableEq

/-- `Room.check_and_update_room_progress`, translated clause by clause. -/
def Room.check_and_update_room_progress (db : DB) (room_id module_number : Nat) :
    RoomResult × DB :=
  let members := Room.get_members db room_id
  if members.isEmpty = true then
    (⟨false, false, false⟩, db)
  else
    if Room.completed_count db room_id module_number = members.length then
      let db1 := Room.insert_room_progress db room_id module_number
      if (Room.get_room_progress db1 room_id).length = 6 then
        if Room.is_demo_room db1 room_id = true then
          (⟨true, true, true⟩, Room.reset_demo_room db1 room_id)
        else
          (⟨true, true, false⟩, Room.delete_room db1 room_id)
      else
        (⟨true, false, false⟩, db1)
    else
      (⟨false, false, false⟩, db)

/-- The number of distinct current members of the room (members in the
sense of `Room.get_members`) who have completed the module — the quantity
the specification's aggregation condition speaks about. -/
def membersCompleted (db : DB) (room_id module_number : Nat) : Nat :=
  ((Room.get_members db room_id).filter
    (fun u => decide ((u, module_number) ∈ db.user_progress))).length

/-- The rooms in which a user has a membership row. -/
def memberships_of (db : DB) (user_id : Nat) : List Nat :=
  (db.room_members.filter (fun p => p.2 == user_id)).map (fun p => p.1)

/-- The spec's membership invariant for one user row: the user's
current-room pointer points to the room of the user's sole membership
row, or is null when the user has no membership row. -/
def user_room_consistent (db : DB) (u : UserRow) : Bool :=
  match u.current_room_id with
  | some r => memberships_of db u.id == [r]
  | none => memberships_of db u.id == []

/-- The spec's membership invariant over the whole database. -/
def db_room_consistent (db : DB) : Bool :=
  db.users.all (user_room_consistent db)

/-! Route layer (`Prototype/routes/rooms.py`, `Prototype/routes/progress.py`). -/

/-- `require_admin`: the authenticated user exists and has the admin role. -/
def require_admin (db : DB) (user_id : Nat) : Bool :=
  match User.find_by_id db user_id with
  | some u => u.role == "admin"
  | none => false

/-- `DELETE /api/rooms/<room_id>`: admin check, 404 on a missing room, 403
on the demo room, otherwise `Room.delete_room` and 200.  The result is the
HTTP status code and the resulting database state. -/
def route_delete_room (db : DB) (auth_user_id room_id : Nat) : Nat × DB :=
  if require_admin db auth_user_id = false then
    (403, db)
  else
    match Room.find_by_id db room_id with
    | none => (404, db)
    | some _ =>
      if Room.is_demo_room db room_id = true then
        (403, db)
      else
        (200, Room.delete_room db room_id)

/-- The three id lists accumulated by `POST /api/rooms/bulk-delete`. -/
structure BulkResult where
  deleted : List Nat
  protectedIds : List Nat
  failed : List Nat
  deriving DecidableEq

/-- One iteration of the `bulk_delete_rooms` loop: a missing room goes to
`failed`, the demo room goes to `protectedIds`, any other room is deleted
and goes to `deleted`. -/
def bulk_delete_step (acc : BulkResult × DB) (room_id : Nat) : BulkResult × DB :=
  match Room.find_by_id acc.2 room_id with
  | none => ({ acc.1 with failed := acc.1.failed ++ [room_id] }, acc.2)
  | some _ =>
    if Room.is_demo_room acc.2 room_id = true then
      ({ acc.1 with protectedIds := acc.1.protectedIds ++ [room_id] }, acc.2)
    else
      ({ acc.1 with deleted := acc.1.deleted ++ [room_id] }, Room.delete_room acc.2 room_id)

/-- `POST /api/rooms/bulk-delete` (after the admin and shape checks): fold
the per-id step over the requested ids. -/
def bulk_delete_rooms (db : DB) (room_ids : List Nat) : BulkResult × DB :=
  room_ids.foldl bulk_delete_step (⟨[], [], []⟩, db)

/-- Outcome of `POST /api/progress/complete`: a 400 for an invalid module
number, a 500-style crash (the route dereferences a missing user, or the
aggregation step raises a storage error), or a 200 whose body carries the
room-progress result when the user was in a room. -/
inductive CompleteResp where
  | badRequest
  | serverError
  | ok (room_progress : Option RoomResult)
  deriving DecidableEq

/-- `POST /api/progress/complete`, parameterised by the room-level
aggregation step so that a failing aggregation (`none`, modelling a raised
storage error) can be expressed: validate the module number, mark the
individual completion, then run the aggregation on the already-updated
state.  On an aggregation failure the individual mark has already been
committed (each `execute_db` call commits its own transaction), so the
resulting state is the post-mark state. -/
def complete_module_with (agg : DB → Nat → Nat → Option (RoomResult × DB))
    (db : DB) (user_id module_number : Nat) : CompleteResp × DB :=
  if module_number < 1 ∨ 6 < module_number then
    (.badRequest, db)
  else
    let db1 := (User.mark_module_complete db user_id module_number).2
    match User.find_by_id db1 user_id with
    | none => (.serverError, db1)
    | some u =>
      match u.current_room_id with
      | none => (.ok none, db1)
      | some room_id =>
        match agg db1 room_id module_number with
        | none => (.serverError, db1)
        | some (res, db2) => (.ok (some res), db2)

/-- The actual `POST /api/progress/complete` flow:
`User.mark_module_complete` followed by
`Room.check_and_update_room_progress`. -/
def complete_module (db : DB) (user_id module_number : Nat) : CompleteResp × DB :=
  complete_module_with
    (fun d r m => some (Room.check_and_update_room_progress d r m)) db user_id module_number

/-! Tile scheduling (`model/compute.py` and the spec's TileScheduler). -/

/-- A tile of the raster: origin and clipped extent, in pixels. -/
structure Tile where
  x0 : Nat
  y0 : Nat
  w : Nat
  h : Nat
  deriving DecidableEq

/-- Modelled from the spec: the tile partition of the native `rustism`
scheduler (the Rust extension is not part of the repository sources).
Tiles are generated in row-major order covering [0,width)×[0,height) with
the given tile dimensions; the final row/column is clipped to the raster
bounds, with no padding. -/
def generateTiles (width height tile_w tile_h : Nat) : List Tile :=
  (List.range ((height + tile_h - 1) / tile_h)).flatMap (fun ty =>
    (List.range ((width + tile_w - 1) / tile_w)).map (fun tx =>
      { x0 := tx * tile_w, y0 := ty * tile_h,
        w := min tile_w (width - tx * tile_w),
        h := min tile_h (height - ty * tile_h) }))

/-- A per-tile timing record, times relative to the run start. -/
structure TaskRecord where
  task_id : Nat
  start_ms : Nat
  end_ms : Nat
  duration_ms : Nat
  deriving DecidableEq

/-- Modelled from the spec: the sequential loop of the native scheduler.
Tiles are processed one at a time in task-id order; the deadline (`none`
for an unbounded budget) is checked before starting each tile; each
completed tile appends a record whose duration is the work's elapsed
time.  `work` abstracts the CPU-bound Mandelbrot kernel as a function
from a tile to its elapsed milliseconds. -/
def runSequentialAux (work : Tile → Nat) (time_limit_ms : Option Nat) :
    List (Nat × Tile) → Nat → List TaskRecord
  | [], _ => []
  | (tid, t) :: rest, clock =>
    match time_limit_ms with
    | some limit =>
      if limit ≤ clock then []
      else
        { task_id := tid, start_ms := clock, end_ms := clock + work t,
          duration_ms := work t } :: runSequentialAux work time_limit_ms rest (clock + work t)
    | none =>
      { task_id := tid, start_ms := clock, end_ms := clock + work t,
        duration_ms := work t } :: runSequentialAux work time_limit_ms rest (clock + work t)

/-- Modelled from the spec: a sequential TileScheduler run — generate the
tiles, assign task ids 0..N−1 in generation order, process in that order
under the time budget. -/
def runSequential (width height tile_w tile_h : Nat) (work : Tile → Nat)
    (time_limit_ms : Option Nat) : List TaskRecord :=
  runSequentialAux work time_limit_ms
    (generateTiles width height tile_w tile_h).enum 0

/-- Whether a pixel lies inside a tile. -/
def Tile.containsPoint (t : Tile) (x y : Nat) : Prop :=
  t.x0 ≤ x ∧ x < t.x0 + t.w ∧ t.y0 ≤ y ∧ y < t.y0 + t.h

/-- Two tiles have non-overlapping bounds. -/
def Tile.DisjointBounds (t1 t2 : Tile) : Prop :=
  t1.x0 + t1.w ≤ t2.x0 ∨ t2.x0 + t2.w ≤ t1.x0 ∨
  t1.y0 + t1.h ≤ t2.y0 ∨ t2.y0 + t2.h ≤ t1.y0

/-! The Python wrappers in `model/compute.py`. -/

/-- The signature of a native scheduler entry point (`rustism.sequential`
or `rustism.concurrent` without its thread-count argument): raster and
tile dimensions, iteration bound, the per-tile emit callback, and the
time limit. -/
def NativeScheduler : Type :=
  Nat → Nat → Nat → Nat → Nat → (Tile → Unit) → Nat → List TaskRecord

/-- The `lambda tile: None` no-op callback substituted by the wrappers. -/
def noopCallback : Tile → Unit := fun _ => ()

/-- `get_sequential`: raise `RuntimeError` when the `rustism` import
failed, substitute the no-op callback when none is given, then call the
native scheduler. -/
def get_sequential (hasRustism : Bool) (native : NativeScheduler)
    (width height tile_w tile_h max_iter : Nat) (emit_callback : Option (Tile → Unit))
    (time_limit_ms : Nat) : Except String (List TaskRecord) :=
  if hasRustism = false then
    .error "Rustism module is not available"
  else
    let cb := match emit_callback with
      | none => noopCallback
      | some f => f
    .ok (native width height tile_w tile_h max_iter cb time_limit_ms)

/-- `get_concurrent`: identical guard and callback substitution, with the
extra thread-count argument passed to the native scheduler. -/
def get_concurrent (hasRustism : Bool) (native : Nat → NativeScheduler)
    (width height tile_w tile_h max_iter : Nat) (emit_callback : Option (Tile → Unit))
    (time_limit_ms num_threads : Nat) : Except String (List TaskRecord) :=
  if hasRustism = false then
    .error "Rustism module is not available"
  else
    let cb := match emit_callback with
      | none => noopCallback
      | some f => f
    .ok (native num_threads width height tile_w tile_h max_iter cb time_limit_ms)

/-! Concrete states used by witnesses and counterexamples. -/

/-- The protected demo room row. -/
def demoRow : RoomRow := ⟨1, "DEMO01", "Demo Room - Always Available"⟩

/-- A regular room row. -/
def roomA : RoomRow := ⟨2, "AAAAAA", "Room A"⟩

/-- A second regular room row. -/
def roomB : RoomRow := ⟨3, "BBBBBB", "Room B"⟩

/-- A state with an admin, a demo-room member with some progress, and both
the demo room and a regular room. -/
def dbC5 : DB :=
  ⟨[⟨1, "admin", none⟩, ⟨2, "student", some 1⟩], [demoRow, roomA], [(2, 1)], [(1, 2)], [(1, 1)]⟩

/-! Helper lemmas about the sequential tile run. -/

/-- With an unbounded budget the emitted records carry the task ids in
generation order. -/
theorem runSequentialAux_map_task_id (work : Tile → Nat) :
    ∀ (l : List (Nat × Tile)) (clock : Nat),
      (runSequentialAux work none l clock).map (fun r => r.task_id) = l.map (fun p => p.1)
  | [], _ => rfl
  | (tid, t) :: rest, clock => by
    simp [runSequentialAux, runSequentialAux_map_task_id work rest (clock + work t)]

/-- Every emitted record's duration is the difference of its end and start
times. -/
theorem runSequentialAux_duration (work : Tile → Nat) (limit : Option Nat) :
    ∀ (l : List (Nat × Tile)) (clock : Nat),
      ∀ r ∈ runSequentialAux work limit l clock, r.duration_ms = r.end_ms - r.start_ms
  | [], _ => by simp [runSequentialAux]
  | (tid, t) :: rest, clock => by
    intro r hr
    match limit with
    | none =>
      simp only [runSequentialAux, List.mem_cons] at hr
      rcases hr with rfl | hr
      · simp
      · exact runSequentialAux_duration work none rest (clock + work t) r hr
    | some L =>
      simp only [runSequentialAux] at hr
      by_cases hL : L ≤ clock
      · simp [hL] at hr
      · simp only [if_neg hL, List.mem_cons] at hr
        rcases hr with rfl | hr
        · simp
        · exact runSequentialAux_duration work (some L) rest (clock + work t) r hr

/-- Claim C9: a sequential TileScheduler run over a 100×100 raster with
50×50 tiles and an unbounded time budget yields exactly 4 TaskRecords with
task ids 0,1,2,3 in that order (row-major generation order), the tile
bounds are pairwise non-overlapping and cover the raster, and each
record's `duration_ms` equals `end_ms - start_ms` and is nonnegative. -/
theorem tileScheduler_sequential_100x100 (work : Tile → Nat) :
    (runSequential 100 100 50 50 work none).map (fun r => r.task_id) = [0, 1, 2, 3]
    ∧ (∀ t1 ∈ generateTiles 100 100 50 50, ∀ t2 ∈ generateTiles 100 100 50 50,
        t1 ≠ t2 → Tile.DisjointBounds t1 t2)
    ∧ (∀ x y : Nat, x < 100 → y < 100 →
        ∃ t ∈ generateTiles 100 100 50 50, t.containsPoint x y)
    ∧ (∀ r ∈ runSequential 100 100 50 50 work none,
        r.duration_ms = r.end_ms - r.start_ms ∧ 0 ≤ r.duration_ms) := by
  have htiles : generateTiles 100 100 50 50 =
      [⟨0, 0, 50, 50⟩, ⟨50, 0, 50, 50⟩, ⟨0, 50, 50, 50⟩, ⟨50, 50, 50, 50⟩] := by decide
  refine ⟨?_, ?_, ?_, ?_⟩
  · rw [runSequential, runSequentialAux_map_task_id, List.enum_map_fst, htiles]
    rfl
  · intro t1 h1 t2 h2 hne
    rw [htiles] at h1 h2
    simp only [List.mem_cons, List.not_mem_nil, or_false] at h1 h2
    rcases h1 with rfl | rfl | rfl | rfl <;> rcases h2 with rfl | rfl | rfl | rfl <;>
      first
        | exact absurd rfl hne
        | simp [Tile.DisjointBounds]
  · intro x y hx hy
    rw [htiles]
    by_cases hx5 : x < 50 <;> by_cases hy5 : y < 50
    · exact ⟨⟨0, 0, 50, 50⟩, by simp, by simp only [Tile.containsPoint]; omega⟩
    · exact ⟨⟨0, 50, 50, 50⟩, by simp, by simp only [Tile.containsPoint]; omega⟩
    · exact ⟨⟨50, 0, 50, 50⟩, by simp, by simp only [Tile.containsPoint]; omega⟩
    · exact ⟨⟨50, 50, 50, 50⟩, by simp, by simp only [Tile.containsPoint]; omega⟩
  · intro r hr
    exact ⟨runSequentialAux_duration work none _ 0 r hr, Nat.zero_le _⟩

/-- Claim C10: when the `rustism` import failed both wrappers return the
RuntimeError outcome, and the result does not depend on the native
scheduler or the callback (neither is invoked — the native scheduler is
the only consumer of the callback); when no callback is supplied the
native scheduler is handed the no-op callable. -/
theorem rustism_guard_and_noop_callback :
    (∀ (native : NativeScheduler) (w h tw th mi tl : Nat) (emit : Option (Tile → Unit)),
        get_sequential false native w h tw th mi emit tl =
          .error "Rustism module is not available")
    ∧ (∀ (native : Nat → NativeScheduler) (w h tw th mi tl nt : Nat)
        (emit : Option (Tile → Unit)),
        get_concurrent false native w h tw th mi emit tl nt =
          .error "Rustism module is not available")
    ∧ (∀ (native : NativeScheduler) (w h tw th mi tl : Nat),
        get_sequential true native w h tw th mi none tl =
          .ok (native w h tw th mi noopCallback tl))
    ∧ (∀ (native : Nat → NativeScheduler) (w h tw th mi tl nt : Nat),
        get_concurrent true native w h tw th mi none tl nt =
          .ok (native nt w h tw th mi noopCallback tl)) := by
  refine ⟨?_, ?_, ?_, ?_⟩ <;> intros <;> rfl

/-- Claim C5, counterexample: at the model layer (`Room.delete_room`, the
layer at which deletion is exposed to all callers, including
`manage_rooms.py`), deleting the demo room is a silent no-op — the
function returns normally (it has no error outcome at all; the source
contains no raise on this path) and leaves the state unchanged.  This
falsifies "always fails with a ProtectedResourceError-equivalent
rejection … never silently ignored … at any layer at which deletion is
exposed". -/
theorem delete_demo_room_silently_ignored :
    Room.is_demo_room dbC5 1 = true ∧ Room.delete_room dbC5 1 = dbC5 := by decide

/-- Claim C5, amended: an explicit delete of the demo room through the
HTTP route is rejected with a 403 error response and leaves the state
unchanged; the model-layer `Room.delete_room` also leaves the state
unchanged but silently returns rather than signalling an error. -/
theorem delete_demo_room_rejected_at_route (db : DB) (auth_user_id room_id : Nat)
    (hdemo : Room.is_demo_room db room_id = true) :
    route_delete_room db auth_user_id room_id = (403, db)
    ∧ Room.delete_room db room_id = db := by
  constructor
  · cases hfind : Room.find_by_id db room_id with
    | none => rw [Room.is_demo_room, hfind] at hdemo; exact absurd hdemo (by simp)
    | some r =>
      rw [route_delete_room]
      cases hadmin : require_admin db auth_user_id with
      | false => rfl
      | true => simp [hfind, hdemo]
  · rw [Room.delete_room, if_pos hdemo]

/-- Witness for the amended claim C5 at a concrete state: the demo room
(id 1) with an admin caller (id 1). -/
theorem delete_demo_room_rejected_at_route_witness :
    Room.is_demo_room dbC5 1 = true
    ∧ (route_delete_room dbC5 1 1 = (403, dbC5) ∧ Room.delete_room dbC5 1 = dbC5) :=
  ⟨by decide, delete_demo_room_rejected_at_route dbC5 1 1 (by decide)⟩

/-! Frame lemmas for the guarded room-progress insert. -/

/-- The guarded insert leaves the `users` table unchanged. -/
theorem insert_room_progress_users (db : DB) (r m : Nat) :
    (Room.insert_room_progress db r m).users = db.users := by
  rw [Room.insert_room_progress]; split <;> rfl

/-- The guarded insert leaves the `rooms` table unchanged. -/
theorem insert_room_progress_rooms (db : DB) (r m : Nat) :
    (Room.insert_room_progress db r m).rooms = db.rooms := by
  rw [Room.insert_room_progress]; split <;> rfl

/-- The guarded insert leaves the membership table unchanged. -/
theorem insert_room_progress_room_members (db : DB) (r m : Nat) :
    (Room.insert_room_progress db r m).room_members = db.room_members := by
  rw [Room.insert_room_progress]; split <;> rfl

/-- The guarded insert leaves the individual progress table unchanged. -/
theorem insert_room_progress_user_progress (db : DB) (r m : Nat) :
    (Room.insert_room_progress db r m).user_progress = db.user_progress := by
  rw [Room.insert_room_progress]; split <;> rfl

/-- Demo-room status is unaffected by the guarded insert. -/
theorem is_demo_room_insert (db : DB) (r m rid : Nat) :
    Room.is_demo_room (Room.insert_room_progress db r m) rid = Room.is_demo_room db rid := by
  rw [Room.is_demo_room, Room.is_demo_room, Room.find_by_id, Room.find_by_id,
    insert_room_progress_rooms]

/-- The member list is unaffected by the guarded insert. -/
theorem get_members_insert (db : DB) (r m rid : Nat) :
    Room.get_members (Room.insert_room_progress db r m) rid = Room.get_members db rid := by
  rw [Room.get_members, Room.get_members, insert_room_progress_room_members]
  congr 1
  apply List.filter_congr
  intro p _
  rw [userExists, userExists, insert_room_progress_users]

/-- Deleting the room's progress rows after the guarded insert gives the
same table as deleting them from the original state. -/
theorem insert_room_progress_filter_out (db : DB) (r m : Nat) :
    (Room.insert_room_progress db r m).room_progress.filter (fun p => !(p.1 == r))
      = db.room_progress.filter (fun p => !(p.1 == r)) := by
  rw [Room.insert_room_progress]
  split
  · simp
  · rfl

/-! The aggregation count. -/

/-- Mapping the user component over distinct membership rows of one room
yields distinct users (UNIQUE(room_id, user_id)). -/
theorem map_snd_nodup_of_const_fst {l : List (Nat × Nat)} {r : Nat}
    (hnd : l.Nodup) (hfst : ∀ p ∈ l, p.1 = r) : (l.map (fun p => p.2)).Nodup := by
  refine hnd.map_on ?_
  intro x hx y hy hxy
  have hx1 := hfst x hx
  have hy1 := hfst y hy
  exact Prod.ext (hx1.trans hy1.symm) hxy

/-- On well-formed states (distinct membership rows, member users present
in the `users` table) the SQL `COUNT(DISTINCT user_id)` of the source
equals the number of distinct current members who completed the module. -/
theorem completed_count_eq_membersCompleted (db : DB) (room_id module_number : Nat)
    (hnd : db.room_members.Nodup)
    (hu : ∀ p ∈ db.room_members, p.1 = room_id → userExists db p.2 = true) :
    Room.completed_count db room_id module_number
      = membersCompleted db room_id module_number := by
  have hL : ∀ p ∈ db.room_members.filter (fun p => p.1 == room_id), p.1 = room_id := by
    intro p hp
    simpa using (List.mem_filter.mp hp).2
  have hfix : (db.room_members.filter (fun p => p.1 == room_id)).filter
      (fun p => userExists db p.2) = db.room_members.filter (fun p => p.1 == room_id) := by
    apply List.filter_eq_self.mpr
    intro p hp
    exact hu p (List.mem_filter.mp hp).1 (hL p hp)
  have hnodup : ((db.room_members.filter (fun p => p.1 == room_id)).map
      (fun p => p.2)).Nodup :=
    map_snd_nodup_of_const_fst (hnd.filter _) hL
  rw [Room.completed_count, membersCompleted, Room.get_members, hfix,
    List.Nodup.dedup (hnodup.filter _)]

/-- Claim C1: on a well-formed state (distinct membership rows, member
users present, existing room, module number in range), if the membership
is empty the call returns `{false, false, false}` and changes nothing;
otherwise it reports the module room-complete exactly when the number of
distinct current members who completed the module equals the membership
size, in which case the RoomModuleCompletion row is (idempotently)
inserted, and otherwise it changes nothing. -/
theorem check_room_progress_aggregation (db : DB) (room_id module_number : Nat)
    (hnd : db.room_members.Nodup)
    (hu : ∀ p ∈ db.room_members, p.1 = room_id → userExists db p.2 = true)
    (hr : roomExists db room_id = true)
    (hm1 : 1 ≤ module_number) (hm6 : module_number ≤ 6) :
    (Room.get_members db room_id = [] →
      Room.check_and_update_room_progress db room_id module_number
        = (⟨false, false, false⟩, db))
    ∧ (Room.get_members db room_id ≠ [] →
        (((Room.check_and_update_room_progress db room_id module_number).1.module_complete
            = true)
          ↔ membersCompleted db room_id module_number = (Room.get_members db room_id).length)
        ∧ ((Room.check_and_update_room_progress db room_id module_number).1.module_complete
              = true →
            (room_id, module_number)
              ∈ (Room.insert_room_progress db room_id module_number).room_progress)
        ∧ ((Room.check_and_update_room_progress db room_id module_number).1.module_complete
              = false →
            Room.check_and_update_room_progress db room_id module_number
              = (⟨false, false, false⟩, db))) := by
  have hcc := completed_count_eq_membersCompleted db room_id module_number hnd hu
  constructor
  · intro hemp
    rw [Room.check_and_update_room_progress]
    simp [hemp]
  · intro hne
    have hempf : (Room.get_members db room_id).isEmpty = false := by
      cases h : Room.get_members db room_id with
      | nil => exact absurd h hne
      | cons a l => rfl
    by_cases hc : Room.completed_count db room_id module_number
        = (Room.get_members db room_id).length
    · have hmc : (Room.check_and_update_room_progress db room_id module_number).1.module_complete
          = true := by
        rw [Room.check_and_update_room_progress]
        simp only [hempf, Bool.false_eq_true, if_false, if_pos hc]
        split
        · split <;> rfl
        · rfl
      refine ⟨⟨fun _ => hcc ▸ hc, fun _ => hmc⟩, fun _ => ?_, fun hmcf => ?_⟩
      · by_cases hmem : (room_id, module_number) ∈ db.room_progress
        · rw [Room.insert_room_progress]
          split
          · exact List.mem_append_left _ hmem
          · exact hmem
        · rw [Room.insert_room_progress, if_pos ⟨hr, hm1, hm6, hmem⟩]
          simp
      · rw [hmc] at hmcf
        exact absurd hmcf (by simp)
    · have heq : Room.check_and_update_room_progress db room_id module_number
          = (⟨false, false, false⟩, db) := by
        rw [Room.check_and_update_room_progress]
        simp only [hempf, Bool.false_eq_true, if_false, if_neg hc]
      refine ⟨⟨fun hmc => ?_, fun hmc => ?_⟩, fun hmc => ?_, fun _ => heq⟩
      · rw [heq] at hmc
        exact absurd hmc (by simp)
      · exact absurd (hcc.trans hmc) hc
      · rw [heq] at hmc
        exact absurd hmc (by simp)

/-- A state for the claim C1 witness: user 1 is the sole member of room 2
and has completed module 3. -/
def dbC1 : DB := ⟨[⟨1, "student", some 2⟩], [roomA], [(1, 3)], [(2, 1)], []⟩

/-- Witness for claim C1 at a concrete input: room 2 of `dbC1` with its
one member having completed module 3. -/
theorem check_room_progress_aggregation_witness :
    dbC1.room_members.Nodup
    ∧ (∀ p ∈ dbC1.room_members, p.1 = 2 → userExists dbC1 p.2 = true)
    ∧ roomExists dbC1 2 = true ∧ 1 ≤ 3 ∧ 3 ≤ 6
    ∧ ((Room.get_members dbC1 2 = [] →
          Room.check_and_update_room_progress dbC1 2 3 = (⟨false, false, false⟩, dbC1))
        ∧ (Room.get_members dbC1 2 ≠ [] →
            (((Room.check_and_update_room_progress dbC1 2 3).1.module_complete = true)
              ↔ membersCompleted dbC1 2 3 = (Room.get_members dbC1 2).length)
            ∧ ((Room.check_and_update_room_progress dbC1 2 3).1.module_complete = true →
                (2, 3) ∈ (Room.insert_room_progress dbC1 2 3).room_progress)
            ∧ ((Room.check_and_update_room_progress dbC1 2 3).1.module_complete = false →
                Room.check_and_update_room_progress dbC1 2 3
                  = (⟨false, false, false⟩, dbC1)))) :=
  ⟨by decide, by decide, by decide, by decide, by decide,
    check_room_progress_aggregation dbC1 2 3 (by decide) (by decide) (by decide)
      (by decide) (by decide)⟩

/-! Room lifecycle: demo reset and room destruction. -/

/-- `Room.reset_demo_room` on the demo room clears the room's
RoomModuleCompletion rows and every current member's individual progress
rows, touching nothing else. -/
theorem reset_demo_room_eq (db : DB) (rid : Nat)
    (hdemo : Room.is_demo_room db rid = true) :
    Room.reset_demo_room db rid = { db with
      room_progress := db.room_progress.filter (fun p => !(p.1 == rid)),
      user_progress := db.user_progress.filter
        (fun p => !((Room.get_members db rid).contains p.1)) } := by
  rw [Room.reset_demo_room, if_pos hdemo]
  rfl

/-- `Room.delete_room` on a non-demo room nulls every member's
current-room pointer, deletes the room's membership and progress rows and
the room row itself, and leaves individual progress untouched. -/
theorem delete_room_eq (db : DB) (rid : Nat)
    (hdemo : Room.is_demo_room db rid = false) :
    Room.delete_room db rid = { db with
      users := db.users.map (fun u =>
        if (Room.get_members db rid).contains u.id then { u with current_room_id := none }
        else u),
      rooms := db.rooms.filter (fun r => !(r.id == rid)),
      room_members := db.room_members.filter (fun p => !(p.1 == rid)),
      room_progress := db.room_progress.filter (fun p => !(p.1 == rid)) } := by
  rw [Room.delete_room, hdemo]
  rfl

/-- Claim C3: when the demo room's set of room-complete modules reaches 6,
the call resets the room — all of the room's RoomModuleCompletion rows and
all of the current members' individual completion rows are deleted, the
membership rows, the room rows and the user rows are untouched, and the
result is `{module_complete := true, room_complete := true, is_demo :=
true}`. -/
theorem demo_room_reset_on_sixth_module (db : DB) (room_id module_number : Nat)
    (hdemo : Room.is_demo_room db room_id = true)
    (hne : Room.get_members db room_id ≠ [])
    (hcount : Room.completed_count db room_id module_number
        = (Room.get_members db room_id).length)
    (hsix : (Room.get_room_progress (Room.insert_room_progress db room_id module_number)
        room_id).length = 6) :
    Room.check_and_update_room_progress db room_id module_number
      = (⟨true, true, true⟩,
          { db with
            room_progress := db.room_progress.filter (fun p => !(p.1 == room_id)),
            user_progress := db.user_progress.filter
              (fun p => !((Room.get_members db room_id).contains p.1)) })
    ∧ (∀ u ∈ Room.get_members db room_id, ∀ k,
        (u, k) ∉
          (Room.check_and_update_room_progress db room_id module_number).2.user_progress) := by
  have hempf : (Room.get_members db room_id).isEmpty = false := by
    cases h : Room.get_members db room_id with
    | nil => exact absurd h hne
    | cons a l => rfl
  have hdemo1 : Room.is_demo_room (Room.insert_room_progress db room_id module_number)
      room_id = true := by
    rw [is_demo_room_insert]; exact hdemo
  have hcheck : Room.check_and_update_room_progress db room_id module_number
      = (⟨true, true, true⟩,
          Room.reset_demo_room (Room.insert_room_progress db room_id module_number) room_id) := by
    rw [Room.check_and_update_room_progress]
    simp only [hempf, Bool.false_eq_true, if_false, if_pos hcount, if_pos hsix, hdemo1, if_pos]
  have hfinal : Room.check_and_update_room_progress db room_id module_number
      = (⟨true, true, true⟩,
          { db with
            room_progress := db.room_progress.filter (fun p => !(p.1 == room_id)),
            user_progress := db.user_progress.filter
              (fun p => !((Room.get_members db room_id).contains p.1)) }) := by
    rw [hcheck, reset_demo_room_eq _ _ hdemo1]
    refine congrArg _ ?_
    ext : 1 <;>
      simp only [insert_room_progress_users, insert_room_progress_rooms,
        insert_room_progress_room_members, insert_room_progress_user_progress,
        insert_room_progress_filter_out, get_members_insert]
  refine ⟨hfinal, ?_⟩
  intro u hu k hmem
  rw [hfinal] at hmem
  simp only [List.mem_filter, Bool.not_eq_true'] at hmem
  have hnc := hmem.2
  simp only [List.contains_eq_any_beq, List.any_eq_false] at hnc
  exact absurd (by simp : (u == u) = true) (hnc u hu)

/-- The state for the claim C3 witness: the demo room (id 1) with a single
member (user 2) who has completed module 4, and modules 1,2,3,5,6 already
room-complete. -/
def dbC3 : DB :=
  ⟨[⟨2, "student", some 1⟩], [demoRow], [(2, 4)], [(1, 2)],
    [(1, 1), (1, 2), (1, 3), (1, 5), (1, 6)]⟩

/-- Witness for claim C3 at a concrete input: completing module 4 in
`dbC3` makes the demo room's sixth module room-complete and resets it. -/
theorem demo_room_reset_on_sixth_module_witness :
    Room.is_demo_room dbC3 1 = true
    ∧ Room.get_members dbC3 1 ≠ []
    ∧ Room.completed_count dbC3 1 4 = (Room.get_members dbC3 1).length
    ∧ (Room.get_room_progress (Room.insert_room_progress dbC3 1 4) 1).length = 6
    ∧ Room.check_and_update_room_progress dbC3 1 4
        = (⟨true, true, true⟩,
            { dbC3 with
              room_progress := dbC3.room_progress.filter (fun p => !(p.1 == 1)),
              user_progress := dbC3.user_progress.filter
                (fun p => !((Room.get_members dbC3 1).contains p.1)) }) :=
  ⟨by decide, by decide, by decide, by decide,
    (demo_room_reset_on_sixth_module dbC3 1 4 (by decide) (by decide) (by decide)
      (by decide)).1⟩

/-- Claim C4: when a non-demo room's set of room-complete modules reaches
6 the room is destroyed — every member's current-room pointer is nulled,
the room's membership and RoomModuleCompletion rows and the room row are
deleted — and the call returns `{module_complete := true, room_complete :=
true}` with no demo-reset flag; the same destruction happens on the
explicit admin-delete path (`Room.delete_room` on any non-demo room). -/
theorem room_destroyed_on_sixth_module (db : DB) (room_id module_number : Nat)
    (hdemo : Room.is_demo_room db room_id = false)
    (hne : Room.get_members db room_id ≠ [])
    (hcount : Room.completed_count db room_id module_number
        = (Room.get_members db room_id).length)
    (hsix : (Room.get_room_progress (Room.insert_room_progress db room_id module_number)
        room_id).length = 6) :
    Room.check_and_update_room_progress db room_id module_number
      = (⟨true, true, false⟩,
          { db with
            users := db.users.map (fun u =>
              if (Room.get_members db room_id).contains u.id then
                { u with current_room_id := none }
              else u),
            rooms := db.rooms.filter (fun r => !(r.id == room_id)),
            room_members := db.room_members.filter (fun p => !(p.1 == room_id)),
            room_progress := db.room_progress.filter (fun p => !(p.1 == room_id)) })
    ∧ (∀ (db' : DB) (rid' : Nat), Room.is_demo_room db' rid' = false →
        Room.delete_room db' rid' = { db' with
          users := db'.users.map (fun u =>
            if (Room.get_members db' rid').contains u.id then
              { u with current_room_id := none }
            else u),
          rooms := db'.rooms.filter (fun r => !(r.id == rid')),
          room_members := db'.room_members.filter (fun p => !(p.1 == rid')),
          room_progress := db'.room_progress.filter (fun p => !(p.1 == rid')) }) := by
  have hempf : (Room.get_members db room_id).isEmpty = false := by
    cases h : Room.get_members db room_id with
    | nil => exact absurd h hne
    | cons a l => rfl
  have hdemo1 : Room.is_demo_room (Room.insert_room_progress db room_id module_number)
      room_id = false := by
    rw [is_demo_room_insert]; exact hdemo
  refine ⟨?_, fun db' rid' h => delete_room_eq db' rid' h⟩
  have hcheck : Room.check_and_update_room_progress db room_id module_number
      = (⟨true, true, false⟩,
          Room.delete_room (Room.insert_room_progress db room_id module_number) room_id) := by
    rw [Room.check_and_update_room_progress]
    simp only [hempf, Bool.false_eq_true, if_false, if_pos hcount, if_pos hsix, hdemo1]
  rw [hcheck, delete_room_eq _ _ hdemo1]
  refine congrArg _ ?_
  ext : 1 <;>
    simp only [insert_room_progress_users, insert_room_progress_rooms,
      insert_room_progress_room_members, insert_room_progress_user_progress,
      insert_room_progress_filter_out, get_members_insert]

/-- The state for the claim C4 witness: regular room 2 with a single
member (user 2) who has completed module 4, and modules 1,2,3,5,6 already
room-complete. -/
def dbC4 : DB :=
  ⟨[⟨2, "student", some 2⟩], [roomA], [(2, 4)], [(2, 2)],
    [(2, 1), (2, 2), (2, 3), (2, 5), (2, 6)]⟩

/-- Witness for claim C4 at a concrete input: completing module 4 in
`dbC4` makes regular room 2's sixth module room-complete and destroys the
room. -/
theorem room_destroyed_on_sixth_module_witness :
    Room.is_demo_room dbC4 2 = false
    ∧ Room.get_members dbC4 2 ≠ []
    ∧ Room.completed_count dbC4 2 4 = (Room.get_members dbC4 2).length
    ∧ (Room.get_room_progress (Room.insert_room_progress dbC4 2 4) 2).length = 6
    ∧ Room.check_and_update_room_progress dbC4 2 4
        = (⟨true, true, false⟩,
            { dbC4 with
              users := dbC4.users.map (fun u =>
                if (Room.get_members dbC4 2).contains u.id then
                  { u with current_room_id := none }
                else u),
              rooms := dbC4.rooms.filter (fun r => !(r.id == 2)),
              room_members := dbC4.room_members.filter (fun p => !(p.1 == 2)),
              room_progress := dbC4.room_progress.filter (fun p => !(p.1 == 2)) }) :=
  ⟨by decide, by decide, by decide, by decide,
    (room_destroyed_on_sixth_module dbC4 2 4 (by decide) (by decide) (by decide)
      (by decide)).1⟩

/-! The completion flow. -/

/-- `mark_module_complete` never touches the `users` table. -/
theorem mark_module_complete_users (db : DB) (u m : Nat) :
    (User.mark_module_complete db u m).2.users = db.users := by
  rw [User.mark_module_complete]; split <;> rfl

/-- `mark_module_complete` never touches the room-progress table. -/
theorem mark_module_complete_room_progress (db : DB) (u m : Nat) :
    (User.mark_module_complete db u m).2.room_progress = db.room_progress := by
  rw [User.mark_module_complete]; split <;> rfl

/-- A user found by `find_by_id` exists. -/
theorem userExists_of_find (db : DB) (u : Nat) (urow : UserRow)
    (h : User.find_by_id db u = some urow) : userExists db u = true := by
  rw [User.find_by_id] at h
  rw [userExists, List.any_eq_true]
  exact ⟨urow, List.mem_of_find?_eq_some h, by simpa using List.find?_some h⟩

/-- After `mark_module_complete` for an existing user and a valid module,
the (user, module) pair is recorded — whether or not it already was. -/
theorem mem_mark_module_complete (db : DB) (u m : Nat)
    (hu : userExists db u = true) (hm1 : 1 ≤ m) (hm6 : m ≤ 6) :
    (u, m) ∈ (User.mark_module_complete db u m).2.user_progress := by
  rw [User.mark_module_complete]
  split
  · simp
  · rename_i h
    simp only [hu, hm1, hm6, true_and, not_not] at h
    exact h

/-- Claim C8: the completion flow writes the individual ModuleCompletion
record before the room-level aggregation step runs — the state handed to
any aggregation step already contains the pair, the real flow is the
generic flow instantiated with `check_and_update_room_progress`, and for
every aggregation step that fails (modelled as `none`, a raised storage
error) the flow ends in the post-mark state, where the individual
completion is recorded. -/
theorem completion_recorded_before_aggregation
    (agg : DB → Nat → Nat → Option (RoomResult × DB)) (db : DB) (u m r : Nat)
    (urow : UserRow) (hm1 : 1 ≤ m) (hm6 : m ≤ 6)
    (hu : User.find_by_id db u = some urow) (hr : urow.current_room_id = some r)
    (hfail : agg (User.mark_module_complete db u m).2 r m = none) :
    complete_module db u m
        = complete_module_with
            (fun d rid k => some (Room.check_and_update_room_progress d rid k)) db u m
    ∧ (u, m) ∈ (User.mark_module_complete db u m).2.user_progress
    ∧ complete_module_with agg db u m
        = (.serverError, (User.mark_module_complete db u m).2)
    ∧ (u, m) ∈ (complete_module_with agg db u m).2.user_progress := by
  have hex : userExists db u = true := userExists_of_find db u urow hu
  have hmm := mem_mark_module_complete db u m hex hm1 hm6
  have hfind : User.find_by_id (User.mark_module_complete db u m).2 u = some urow := by
    rw [User.find_by_id, mark_module_complete_users, ← User.find_by_id]
    exact hu
  have hflow : complete_module_with agg db u m
      = (.serverError, (User.mark_module_complete db u m).2) := by
    rw [complete_module_with, if_neg (by omega)]
    simp only [hfind, hr, hfail]
  exact ⟨rfl, hmm, hflow, by rw [hflow]; exact hmm⟩

/-- A state for the claim C8 witness: user 1 is a member of room 2 and has
not yet completed module 3. -/
def dbC8 : DB := ⟨[⟨1, "student", some 2⟩], [roomA], [], [(2, 1)], []⟩

/-- Witness for claim C8 at a concrete input: an aggregation step that
always fails, applied after user 1 completes module 3 in `dbC8`. -/
theorem completion_recorded_before_aggregation_witness :
    1 ≤ 3 ∧ 3 ≤ 6
    ∧ User.find_by_id dbC8 1 = some ⟨1, "student", some 2⟩
    ∧ (⟨1, "student", some 2⟩ : UserRow).current_room_id = some 2
    ∧ (fun (_ : DB) (_ _ : Nat) => (none : Option (RoomResult × DB)))
        (User.mark_module_complete dbC8 1 3).2 2 3 = none
    ∧ ((1, 3) ∈ (User.mark_module_complete dbC8 1 3).2.user_progress
        ∧ complete_module_with (fun _ _ _ => none) dbC8 1 3
            = (.serverError, (User.mark_module_complete dbC8 1 3).2)
        ∧ (1, 3) ∈ (complete_module_with (fun _ _ _ => none) dbC8 1 3).2.user_progress) :=
  ⟨by decide, by decide, by decide, by decide, by decide,
    (completion_recorded_before_aggregation (fun _ _ _ => none) dbC8 1 3 2
      ⟨1, "student", some 2⟩ (by decide) (by decide) (by decide) (by decide) rfl).2⟩

/-! Idempotence of re-completion. -/

/-- A state where user 1 already has module 2 recorded while the room-level
row is absent: user 1 completed module 2 before joining room 2 alone. -/
def dbC2 : DB := ⟨[⟨1, "student", some 2⟩], [roomA], [(1, 2)], [(2, 1)], []⟩

/-- Claim C2, counterexample: (1, 2) is already recorded complete in
`dbC2`, yet re-invoking the completion flow changes the room state — a new
RoomModuleCompletion row (2, 2) appears (the aggregation is re-evaluated
against the current membership), so "no count changes" fails. -/
theorem recompletion_changes_room_state :
    (1, 2) ∈ dbC2.user_progress
    ∧ dbC2.room_progress = []
    ∧ (complete_module dbC2 1 2).2.room_progress = [(2, 2)] := by decide

/-- The guarded room-progress insert preserves row distinctness. -/
theorem insert_room_progress_nodup (db : DB) (r m : Nat)
    (h : db.room_progress.Nodup) :
    (Room.insert_room_progress db r m).room_progress.Nodup := by
  rw [Room.insert_room_progress]
  split
  · rename_i hc
    refine List.Nodup.append h (List.nodup_singleton _) ?_
    intro x hx hx'
    simp only [List.mem_singleton] at hx'
    subst hx'
    exact hc.2.2.2 hx
  · exact h

/-- The demo reset preserves room-progress row distinctness. -/
theorem reset_demo_room_progress_nodup (db : DB) (rid : Nat)
    (h : db.room_progress.Nodup) :
    (Room.reset_demo_room db rid).room_progress.Nodup := by
  rw [Room.reset_demo_room]
  split
  · exact h.filter _
  · exact h

/-- Room deletion preserves room-progress row distinctness. -/
theorem delete_room_progress_nodup (db : DB) (rid : Nat)
    (h : db.room_progress.Nodup) :
    (Room.delete_room db rid).room_progress.Nodup := by
  rw [Room.delete_room]
  split
  · exact h
  · exact h.filter _

/-- The aggregation step preserves room-progress row distinctness — in
particular it never creates a duplicate RoomModuleCompletion row. -/
theorem check_room_progress_nodup (db : DB) (r m : Nat)
    (h : db.room_progress.Nodup) :
    (Room.check_and_update_room_progress db r m).2.room_progress.Nodup := by
  simp only [Room.check_and_update_room_progress]
  split
  · exact h
  · split
    · split
      · split
        · exact reset_demo_room_progress_nodup _ _ (insert_room_progress_nodup db r m h)
        · exact delete_room_progress_nodup _ _ (insert_room_progress_nodup db r m h)
      · exact insert_room_progress_nodup db r m h
    · exact h

/-- The full completion flow preserves room-progress row distinctness. -/
theorem complete_module_room_progress_nodup (db : DB) (u m : Nat)
    (h : db.room_progress.Nodup) :
    (complete_module db u m).2.room_progress.Nodup := by
  simp only [complete_module, complete_module_with]
  split
  · exact h
  · have h1 : (User.mark_module_complete db u m).2.room_progress.Nodup := by
      rw [mark_module_complete_room_progress]; exact h
    cases hf : User.find_by_id (User.mark_module_complete db u m).2 u with
    | none => simp only [hf]; exact h1
    | some urow =>
      simp only [hf]
      cases hcr : urow.current_room_id with
      | none => exact h1
      | some r => exact check_room_progress_nodup _ r m h1

/-- When the aggregation condition does not fire anew (membership empty,
or not all members complete, or the row already present with fewer than 6
modules room-complete), the aggregation call leaves the state untouched. -/
theorem check_no_change (db : DB) (r m : Nat)
    (hcond : Room.get_members db r ≠ [] →
      Room.completed_count db r m = (Room.get_members db r).length →
      ((r, m) ∈ db.room_progress ∧ (Room.get_room_progress db r).length ≠ 6)) :
    ∃ res, Room.check_and_update_room_progress db r m = (res, db) := by
  by_cases hne : Room.get_members db r = []
  · refine ⟨⟨false, false, false⟩, ?_⟩
    rw [Room.check_and_update_room_progress]
    simp [hne]
  · have hempf : (Room.get_members db r).isEmpty = false := by
      cases hx : Room.get_members db r with
      | nil => exact absurd hx hne
      | cons a l => rfl
    by_cases hc : Room.completed_count db r m = (Room.get_members db r).length
    · obtain ⟨hmem, h6⟩ := hcond hne hc
      have hins : Room.insert_room_progress db r m = db := by
        rw [Room.insert_room_progress, if_neg]
        intro hx
        exact hx.2.2.2 hmem
      refine ⟨⟨true, false, false⟩, ?_⟩
      rw [Room.check_and_update_room_progress]
      simp only [hempf, Bool.false_eq_true, if_false, if_pos hc, hins, if_neg h6]
    · refine ⟨⟨false, false, false⟩, ?_⟩
      rw [Room.check_and_update_room_progress]
      simp only [hempf, Bool.false_eq_true, if_false, if_neg hc]

/-- Claim C2, amended: re-invoking the completion flow for an
already-recorded (user, module) pair leaves the individual completion set
untouched (the mark is a silent no-op, not an error), never creates a
duplicate RoomModuleCompletion row (row distinctness is preserved by every
flow invocation), and — provided the room-level aggregation condition has
not newly become true (the (room, module) row already exists with fewer
than six modules room-complete whenever all members have completed the
module) — the whole state is unchanged and the call is a silent success. -/
theorem recompletion_idempotent_amended (db : DB) (u m : Nat) (urow : UserRow)
    (hp : (u, m) ∈ db.user_progress) (hm1 : 1 ≤ m) (hm6 : m ≤ 6)
    (hu : User.find_by_id db u = some urow)
    (hcond : ∀ r, urow.current_room_id = some r →
      Room.get_members db r ≠ [] →
      Room.completed_count db r m = (Room.get_members db r).length →
      ((r, m) ∈ db.room_progress ∧ (Room.get_room_progress db r).length ≠ 6)) :
    User.mark_module_complete db u m = (false, db)
    ∧ (∀ (db' : DB) (u' m' : Nat), db'.room_progress.Nodup →
        (complete_module db' u' m').2.room_progress.Nodup)
    ∧ (complete_module db u m).2 = db
    ∧ (∃ o, (complete_module db u m).1 = CompleteResp.ok o) := by
  have hmark : User.mark_module_complete db u m = (false, db) := by
    rw [User.mark_module_complete, if_neg]
    intro hx
    exact hx.2.2.2 hp
  have hmark2 : (User.mark_module_complete db u m).2 = db := by rw [hmark]
  have hflow : ∃ o, complete_module db u m = (CompleteResp.ok o, db) := by
    rw [complete_module, complete_module_with, if_neg (by omega)]
    simp only [hmark2, hu]
    cases hcr : urow.current_room_id with
    | none => exact ⟨none, rfl⟩
    | some r =>
      obtain ⟨res, hres⟩ := check_no_change db r m (hcond r hcr)
      simp only [hres]
      exact ⟨some res, rfl⟩
  obtain ⟨o, ho⟩ := hflow
  exact ⟨hmark, fun db' u' m' h => complete_module_room_progress_nodup db' u' m' h,
    by rw [ho], ⟨o, by rw [ho]⟩⟩

/-- A state where the pair (1, 2) and the room-level row (2, 2) are both
already recorded and fewer than six modules are room-complete. -/
def dbC2w : DB := ⟨[⟨1, "student", some 2⟩], [roomA], [(1, 2)], [(2, 1)], [(2, 2)]⟩

/-- Witness for the amended claim C2 at a concrete input: re-invoking the
completion flow for the recorded pair (1, 2) in `dbC2w` is a silent no-op
success. -/
theorem recompletion_idempotent_amended_witness :
    (1, 2) ∈ dbC2w.user_progress
    ∧ User.mark_module_complete dbC2w 1 2 = (false, dbC2w)
    ∧ (complete_module dbC2w 1 2).2 = dbC2w
    ∧ (complete_module dbC2w 1 2).1 = CompleteResp.ok (some ⟨true, false, false⟩) := by
  have h := recompletion_idempotent_amended dbC2w 1 2 ⟨1, "student", some 2⟩
    (by decide) (by decide) (by decide) (by decide)
    (by
      intro r hr
      obtain rfl : r = 2 := by simpa using hr.symm
      intro _ _
      exact ⟨by decide, by decide⟩)
  exact ⟨by decide, h.1, h.2.2.1, by decide⟩

/-! The membership invariant. -/

/-- A state where user 1 is a member of room 2 with a consistent pointer,
and room 3 also exists. -/
def dbC6 : DB := ⟨[⟨1, "student", some 2⟩], [roomA, roomB], [], [(2, 1)], []⟩

/-- Claim C6, counterexample: from the consistent state `dbC6` (user 1's
sole membership is room 2), `add_member 3 1` succeeds without removing the
old membership, leaving user 1 in two rooms' membership sets at once — the
at-most-one-room invariant is not preserved. -/
theorem membership_invariant_not_preserved :
    db_room_consistent dbC6 = true
    ∧ (Room.add_member dbC6 3 1).1 = true
    ∧ db_room_consistent (Room.add_member dbC6 3 1).2 = false := by decide

/-- Changing only fields other than the membership rows relevant to a user
keeps that user's consistency check unchanged. -/
theorem user_room_consistent_congr (db db' : DB) (u : UserRow)
    (h : memberships_of db' u.id = memberships_of db u.id) :
    user_room_consistent db' u = user_room_consistent db u := by
  cases hcr : u.current_room_id <;>
    simp [user_room_consistent, hcr, h]

/-- Claim C6, amended: `add_member` preserves the membership invariant
provided the added user has no existing membership row (which the code
does not itself guarantee — see the counterexample), and `remove_member`
preserves it provided the user's membership rows (if any) are all in the
removed room. -/
theorem membership_invariant_amended (db : DB) (rid uid : Nat) :
    (db_room_consistent db = true → memberships_of db uid = [] →
      db_room_consistent (Room.add_member db rid uid).2 = true)
    ∧ (db_room_consistent db = true →
      (∀ p ∈ db.room_members, p.2 = uid → p.1 = rid) →
      db_room_consistent (Room.remove_member db rid uid) = true) := by
  constructor
  · intro hcons hemp
    rw [db_room_consistent, List.all_eq_true] at hcons
    rw [Room.add_member]
    split
    · rw [db_room_consistent, List.all_eq_true]
      intro u' hu'
      simp only [List.mem_map] at hu'
      obtain ⟨u, hu, rfl⟩ := hu'
      have hfilter : db.room_members.filter (fun p => p.2 == uid) = [] := by
        have := hemp
        rw [memberships_of] at this
        exact List.map_eq_nil_iff.mp this
      by_cases hid : u.id = uid
      · rw [if_pos (by simp [hid])]
        rw [user_room_consistent]
        simp only [memberships_of, List.filter_append, hid, hfilter]
        simp
      · rw [if_neg (by simp [hid])]
        have hmx : memberships_of
            { db with
              room_members := db.room_members ++ [(rid, uid)],
              users := db.users.map (fun v =>
                if v.id == uid then { v with current_room_id := some rid } else v) } u.id
            = memberships_of db u.id := by
          simp only [memberships_of, List.filter_append]
          have : [(rid, uid)].filter (fun p => p.2 == u.id) = [] := by
            simp [Ne.symm hid]
          rw [this]
          simp
        rw [user_room_consistent_congr _ _ _ hmx]
        exact hcons u hu
    · exact List.all_eq_true.mpr hcons
  · intro hcons hall
    rw [db_room_consistent, List.all_eq_true] at hcons
    rw [db_room_consistent, List.all_eq_true]
    intro u' hu'
    simp only [Room.remove_member, List.mem_map] at hu'
    obtain ⟨u, hu, rfl⟩ := hu'
    by_cases hid : u.id = uid
    · rw [if_pos (by simp [hid])]
      rw [user_room_consistent]
      have hnil : memberships_of (Room.remove_member db rid uid) u.id = [] := by
        rw [memberships_of]
        have hfe : (Room.remove_member db rid uid).room_members.filter
            (fun p => p.2 == u.id) = [] := by
          simp only [Room.remove_member]
          rw [List.filter_filter, List.filter_eq_nil_iff]
          intro p hp
          by_cases h2 : p.2 = uid
          · have h1 : p.1 = rid := hall p hp h2
            simp [h1, h2, hid]
          · simp [hid, h2]
        rw [hfe]
        rfl
      simp only [hnil]
      simp
    · rw [if_neg (by simp [hid])]
      have hmx : memberships_of (Room.remove_member db rid uid) u.id
          = memberships_of db u.id := by
        simp only [memberships_of, Room.remove_member]
        rw [List.filter_filter]
        congr 1
        apply List.filter_congr
        intro p _
        by_cases h2 : p.2 = u.id
        · have : (p.2 == uid) = false := by simp [h2, hid]
          simp [h2, this, hid]
        · simp [h2]
      rw [user_room_consistent_congr _ _ _ hmx]
      exact hcons u hu

/-- Witness for the amended claim C6 at a concrete input: in `dbC5` (an
admin with no membership), adding user 1 to room 2 and removing user 2
from room 1 both preserve the invariant. -/
theorem membership_invariant_amended_witness :
    db_room_consistent dbC5 = true
    ∧ memberships_of dbC5 1 = []
    ∧ (∀ p ∈ dbC5.room_members, p.2 = 2 → p.1 = 1)
    ∧ db_room_consistent (Room.add_member dbC5 2 1).2 = true
    ∧ db_room_consistent (Room.remove_member dbC5 1 2) = true :=
  ⟨by decide, by decide, by decide,
    (membership_invariant_amended dbC5 2 1).1 (by decide) (by decide),
    (membership_invariant_amended dbC5 1 2).2 (by decide) (by decide)⟩

/-! Bulk delete. -/

/-- A state with an admin user, the demo room (id 1) and a regular room
(id 2). -/
def dbC7 : DB := ⟨[⟨1, "admin", none⟩], [demoRow, roomA], [], [], []⟩

/-- Claim C7, counterexample: with the duplicate input list [2, 2] the id
2 is reported in the `deleted` bucket (first occurrence) and in the
`failed` bucket (second occurrence, the room is gone by then) — not in
exactly one set. -/
theorem bulk_delete_duplicate_id_in_two_buckets :
    (bulk_delete_rooms dbC7 [2, 2]).1.deleted = [2]
    ∧ (bulk_delete_rooms dbC7 [2, 2]).1.failed = [2] := by decide

/-- The bulk-delete fold only appends to the accumulated buckets, and the
final database state does not depend on the accumulated buckets. -/
theorem bulk_foldl_acc (l : List Nat) : ∀ (res : BulkResult) (db : DB),
    (List.foldl bulk_delete_step (res, db) l).1.deleted
        = res.deleted ++ (List.foldl bulk_delete_step (⟨[], [], []⟩, db) l).1.deleted
    ∧ (List.foldl bulk_delete_step (res, db) l).1.protectedIds
        = res.protectedIds
            ++ (List.foldl bulk_delete_step (⟨[], [], []⟩, db) l).1.protectedIds
    ∧ (List.foldl bulk_delete_step (res, db) l).1.failed
        = res.failed ++ (List.foldl bulk_delete_step (⟨[], [], []⟩, db) l).1.failed
    ∧ (List.foldl bulk_delete_step (res, db) l).2
        = (List.foldl bulk_delete_step (⟨[], [], []⟩, db) l).2 := by
  induction l with
  | nil => intro res db; simp
  | cons a l ih =>
    intro res db
    rw [List.foldl_cons, List.foldl_cons]
    cases hfind : Room.find_by_id db a with
    | none =>
      simp only [bulk_delete_step, hfind]
      obtain ⟨h1, h2, h3, h4⟩ := ih { res with failed := res.failed ++ [a] } db
      obtain ⟨g1, g2, g3, g4⟩ := ih ⟨[], [], [a]⟩ db
      exact ⟨by simp [h1, g1], by simp [h2, g2], by simp [h3, g3], h4.trans g4.symm⟩
    | some rrow =>
      cases hdemo : Room.is_demo_room db a with
      | true =>
        simp only [bulk_delete_step, hfind, hdemo, if_true]
        obtain ⟨h1, h2, h3, h4⟩ :=
          ih { res with protectedIds := res.protectedIds ++ [a] } db
        obtain ⟨g1, g2, g3, g4⟩ := ih ⟨[], [a], []⟩ db
        exact ⟨by simp [h1, g1], by simp [h2, g2], by simp [h3, g3], h4.trans g4.symm⟩
      | false =>
        simp only [bulk_delete_step, hfind, hdemo, Bool.false_eq_true, if_false]
        obtain ⟨h1, h2, h3, h4⟩ :=
          ih { res with deleted := res.deleted ++ [a] } (Room.delete_room db a)
        obtain ⟨g1, g2, g3, g4⟩ := ih ⟨[a], [], []⟩ (Room.delete_room db a)
        exact ⟨by simp [h1, g1], by simp [h2, g2], by simp [h3, g3], h4.trans g4.symm⟩

/-- The three buckets of the bulk-delete fold together have exactly one
entry per processed id. -/
theorem bulk_foldl_len (l : List Nat) : ∀ (res : BulkResult) (db : DB),
    (List.foldl bulk_delete_step (res, db) l).1.deleted.length
      + (List.foldl bulk_delete_step (res, db) l).1.protectedIds.length
      + (List.foldl bulk_delete_step (res, db) l).1.failed.length
    = res.deleted.length + res.protectedIds.length + res.failed.length + l.length := by
  induction l with
  | nil => intro res db; simp
  | cons a l ih =>
    intro res db
    rw [List.foldl_cons]
    cases hfind : Room.find_by_id db a with
    | none =>
      simp only [bulk_delete_step, hfind]
      rw [ih]
      simp
      omega
    | some rrow =>
      cases hdemo : Room.is_demo_room db a with
      | true =>
        simp only [bulk_delete_step, hfind, hdemo, if_true]
        rw [ih]
        simp
        omega
      | false =>
        simp only [bulk_delete_step, hfind, hdemo, Bool.false_eq_true, if_false]
        rw [ih]
        simp
        omega

/-- Bucket entries are never removed by later iterations. -/
theorem bulk_mono (l : List Nat) : ∀ (res : BulkResult) (db : DB),
    (∀ x ∈ res.deleted, x ∈ (List.foldl bulk_delete_step (res, db) l).1.deleted)
    ∧ (∀ x ∈ res.protectedIds,
        x ∈ (List.foldl bulk_delete_step (res, db) l).1.protectedIds)
    ∧ (∀ x ∈ res.failed, x ∈ (List.foldl bulk_delete_step (res, db) l).1.failed) := by
  induction l with
  | nil => intro res db; exact ⟨fun x h => h, fun x h => h, fun x h => h⟩
  | cons a l ih =>
    intro res db
    rw [List.foldl_cons]
    cases hfind : Room.find_by_id db a with
    | none =>
      simp only [bulk_delete_step, hfind]
      obtain ⟨i1, i2, i3⟩ := ih { res with failed := res.failed ++ [a] } db
      exact ⟨i1, i2, fun x h => i3 x (List.mem_append_left _ h)⟩
    | some rrow =>
      cases hdemo : Room.is_demo_room db a with
      | true =>
        simp only [bulk_delete_step, hfind, hdemo, if_true]
        obtain ⟨i1, i2, i3⟩ := ih { res with protectedIds := res.protectedIds ++ [a] } db
        exact ⟨i1, fun x h => i2 x (List.mem_append_left _ h), i3⟩
      | false =>
        simp only [bulk_delete_step, hfind, hdemo, Bool.false_eq_true, if_false]
        obtain ⟨i1, i2, i3⟩ :=
          ih { res with deleted := res.deleted ++ [a] } (Room.delete_room db a)
        exact ⟨fun x h => i1 x (List.mem_append_left _ h), i2, i3⟩

/-- Every bucket entry is an accumulated entry or an input id. -/
theorem bulk_buckets_subset (l : List Nat) : ∀ (res : BulkResult) (db : DB) (x : Nat),
    (x ∈ (List.foldl bulk_delete_step (res, db) l).1.deleted → x ∈ res.deleted ∨ x ∈ l)
    ∧ (x ∈ (List.foldl bulk_delete_step (res, db) l).1.protectedIds →
        x ∈ res.protectedIds ∨ x ∈ l)
    ∧ (x ∈ (List.foldl bulk_delete_step (res, db) l).1.failed → x ∈ res.failed ∨ x ∈ l) := by
  induction l with
  | nil => intro res db x; simp
  | cons a l ih =>
    intro res db x
    rw [List.foldl_cons]
    have hsplit : ∀ (X : List Nat), x ∈ X ++ [a] → x ∈ X ∨ x ∈ a :: l := by
      intro X h
      rcases List.mem_append.mp h with h' | h'
      · exact Or.inl h'
      · simp only [List.mem_singleton] at h'
        exact Or.inr (by simp [h'])
    cases hfind : Room.find_by_id db a with
    | none =>
      simp only [bulk_delete_step, hfind]
      obtain ⟨i1, i2, i3⟩ := ih { res with failed := res.failed ++ [a] } db x
      refine ⟨fun h => ?_, fun h => ?_, fun h => ?_⟩
      · rcases i1 h with h' | h'
        · exact Or.inl h'
        · exact Or.inr (List.mem_cons_of_mem a h')
      · rcases i2 h with h' | h'
        · exact Or.inl h'
        · exact Or.inr (List.mem_cons_of_mem a h')
      · rcases i3 h with h' | h'
        · exact hsplit _ h'
        · exact Or.inr (List.mem_cons_of_mem a h')
    | some rrow =>
      cases hdemo : Room.is_demo_room db a with
      | true =>
        simp only [bulk_delete_step, hfind, hdemo, if_true]
        obtain ⟨i1, i2, i3⟩ := ih { res with protectedIds := res.protectedIds ++ [a] } db x
        refine ⟨fun h => ?_, fun h => ?_, fun h => ?_⟩
        · rcases i1 h with h' | h'
          · exact Or.inl h'
          · exact Or.inr (List.mem_cons_of_mem a h')
        · rcases i2 h with h' | h'
          · exact hsplit _ h'
          · exact Or.inr (List.mem_cons_of_mem a h')
        · rcases i3 h with h' | h'
          · exact Or.inl h'
          · exact Or.inr (List.mem_cons_of_mem a h')
      | false =>
        simp only [bulk_delete_step, hfind, hdemo, Bool.false_eq_true, if_false]
        obtain ⟨i1, i2, i3⟩ :=
          ih { res with deleted := res.deleted ++ [a] } (Room.delete_room db a) x
        refine ⟨fun h => ?_, fun h => ?_, fun h => ?_⟩
        · rcases i1 h with h' | h'
          · exact hsplit _ h'
          · exact Or.inr (List.mem_cons_of_mem a h')
        · rcases i2 h with h' | h'
          · exact Or.inl h'
          · exact Or.inr (List.mem_cons_of_mem a h')
        · rcases i3 h with h' | h'
          · exact Or.inl h'
          · exact Or.inr (List.mem_cons_of_mem a h')

/-- Every input id lands in some bucket. -/
theorem bulk_input_in_buckets (l : List Nat) : ∀ (res : BulkResult) (db : DB) (x : Nat),
    x ∈ l →
    x ∈ (List.foldl bulk_delete_step (res, db) l).1.deleted
    ∨ x ∈ (List.foldl bulk_delete_step (res, db) l).1.protectedIds
    ∨ x ∈ (List.foldl bulk_delete_step (res, db) l).1.failed := by
  induction l with
  | nil => intro res db x hx; simp at hx
  | cons a l ih =>
    intro res db x hx
    rw [List.foldl_cons]
    rcases List.mem_cons.mp hx with rfl | hxl
    · cases hfind : Room.find_by_id db x with
      | none =>
        simp only [bulk_delete_step, hfind]
        have hm := bulk_mono l { res with failed := res.failed ++ [x] } db
        exact Or.inr (Or.inr (hm.2.2 x (List.mem_append_right _ (by simp))))
      | some rrow =>
        cases hdemo : Room.is_demo_room db x with
        | true =>
          simp only [bulk_delete_step, hfind, hdemo, if_true]
          have hm := bulk_mono l { res with protectedIds := res.protectedIds ++ [x] } db
          exact Or.inr (Or.inl (hm.2.1 x (List.mem_append_right _ (by simp))))
        | false =>
          simp only [bulk_delete_step, hfind, hdemo, Bool.false_eq_true, if_false]
          have hm := bulk_mono l { res with deleted := res.deleted ++ [x] }
            (Room.delete_room db x)
          exact Or.inl (hm.1 x (List.mem_append_right _ (by simp)))
    · cases hfind : Room.find_by_id db a with
      | none =>
        simp only [bulk_delete_step, hfind]
        exact ih { res with failed := res.failed ++ [a] } db x hxl
      | some rrow =>
        cases hdemo : Room.is_demo_room db a with
        | true =>
          simp only [bulk_delete_step, hfind, hdemo, if_true]
          exact ih { res with protectedIds := res.protectedIds ++ [a] } db x hxl
        | false =>
          simp only [bulk_delete_step, hfind, hdemo, Bool.false_eq_true, if_false]
          exact ih { res with deleted := res.deleted ++ [a] } (Room.delete_room db a) x hxl

/-- For a duplicate-free input no id lands in two different buckets. -/
theorem bulk_disjoint (l : List Nat) : ∀ (db : DB), l.Nodup → ∀ x : Nat,
    ¬(x ∈ (List.foldl bulk_delete_step (⟨[], [], []⟩, db) l).1.deleted
      ∧ x ∈ (List.foldl bulk_delete_step (⟨[], [], []⟩, db) l).1.protectedIds)
    ∧ ¬(x ∈ (List.foldl bulk_delete_step (⟨[], [], []⟩, db) l).1.deleted
      ∧ x ∈ (List.foldl bulk_delete_step (⟨[], [], []⟩, db) l).1.failed)
    ∧ ¬(x ∈ (List.foldl bulk_delete_step (⟨[], [], []⟩, db) l).1.protectedIds
      ∧ x ∈ (List.foldl bulk_delete_step (⟨[], [], []⟩, db) l).1.failed) := by
  induction l with
  | nil => intro db _ x; simp
  | cons a l ih =>
    intro db hnd x
    obtain ⟨ha, hnd'⟩ := List.nodup_cons.mp hnd
    rw [List.foldl_cons]
    cases hfind : Room.find_by_id db a with
    | none =>
      simp only [bulk_delete_step, hfind, List.nil_append]
      obtain ⟨h1, h2, h3, -⟩ := bulk_foldl_acc l ⟨[], [], [a]⟩ db
      rw [h1, h2, h3]
      obtain ⟨d1, d2, d3⟩ := ih db hnd' x
      refine ⟨?_, ?_, ?_⟩
      · rintro ⟨hA, hB⟩
        simp only [List.nil_append] at hA hB
        exact d1 ⟨hA, hB⟩
      · rintro ⟨hA, hB⟩
        simp only [List.nil_append, List.singleton_append, List.mem_cons] at hA hB
        rcases hB with rfl | hB
        · rcases (bulk_buckets_subset l ⟨[], [], []⟩ db x).1 hA with h | h
          · simp at h
          · exact ha h
        · exact d2 ⟨hA, hB⟩
      · rintro ⟨hA, hB⟩
        simp only [List.nil_append, List.singleton_append, List.mem_cons] at hA hB
        rcases hB with rfl | hB
        · rcases (bulk_buckets_subset l ⟨[], [], []⟩ db x).2.1 hA with h | h
          · simp at h
          · exact ha h
        · exact d3 ⟨hA, hB⟩
    | some rrow =>
      cases hdemo : Room.is_demo_room db a with
      | true =>
        simp only [bulk_delete_step, hfind, hdemo, if_true, List.nil_append]
        obtain ⟨h1, h2, h3, -⟩ := bulk_foldl_acc l ⟨[], [a], []⟩ db
        rw [h1, h2, h3]
        obtain ⟨d1, d2, d3⟩ := ih db hnd' x
        refine ⟨?_, ?_, ?_⟩
        · rintro ⟨hA, hB⟩
          simp only [List.nil_append, List.singleton_append, List.mem_cons] at hA hB
          rcases hB with rfl | hB
          · rcases (bulk_buckets_subset l ⟨[], [], []⟩ db x).1 hA with h | h
            · simp at h
            · exact ha h
          · exact d1 ⟨hA, hB⟩
        · rintro ⟨hA, hB⟩
          simp only [List.nil_append] at hA hB
          exact d2 ⟨hA, hB⟩
        · rintro ⟨hA, hB⟩
          simp only [List.nil_append, List.singleton_append, List.mem_cons] at hA hB
          rcases hA with rfl | hA
          · rcases (bulk_buckets_subset l ⟨[], [], []⟩ db x).2.2 hB with h | h
            · simp at h
            · exact ha h
          · exact d3 ⟨hA, hB⟩
      | false =>
        simp only [bulk_delete_step, hfind, hdemo, Bool.false_eq_true, if_false,
          List.nil_append]
        obtain ⟨h1, h2, h3, -⟩ := bulk_foldl_acc l ⟨[a], [], []⟩ (Room.delete_room db a)
        rw [h1, h2, h3]
        obtain ⟨d1, d2, d3⟩ := ih (Room.delete_room db a) hnd' x
        refine ⟨?_, ?_, ?_⟩
        · rintro ⟨hA, hB⟩
          simp only [List.nil_append, List.singleton_append, List.mem_cons] at hA hB
          rcases hA with rfl | hA
          · rcases (bulk_buckets_subset l ⟨[], [], []⟩ (Room.delete_room db x) x).2.1 hB
              with h | h
            · simp at h
            · exact ha h
          · exact d1 ⟨hA, hB⟩
        · rintro ⟨hA, hB⟩
          simp only [List.nil_append, List.singleton_append, List.mem_cons] at hA hB
          rcases hA with rfl | hA
          · rcases (bulk_buckets_subset l ⟨[], [], []⟩ (Room.delete_room db x) x).2.2 hB
              with h | h
            · simp at h
            · exact ha h
          · exact d2 ⟨hA, hB⟩
        · rintro ⟨hA, hB⟩
          simp only [List.nil_append] at hA hB
          exact d3 ⟨hA, hB⟩

/-- Deleting one room leaves lookups of any other room unchanged. -/
theorem find_filter_ne (rooms : List RoomRow) (x y : Nat) (hxy : x ≠ y) :
    (rooms.filter (fun r => !(r.id == y))).find? (fun r => r.id == x)
      = rooms.find? (fun r => r.id == x) := by
  induction rooms with
  | nil => rfl
  | cons a rs ih =>
    by_cases hay : a.id = y
    · have hc : (!(a.id == y)) = false := by simp [hay]
      have h2 : (a.id == x) = false := by
        simp only [beq_eq_false_iff_ne, ne_eq]
        intro h
        exact hxy (h ▸ hay)
      simp [List.filter_cons, hc, List.find?_cons, h2, ih]
    · have hc : (!(a.id == y)) = true := by simp [hay]
      by_cases hax : a.id = x
      · simp [List.filter_cons, hc, List.find?_cons, hax, hxy]
      · have h2 : (a.id == x) = false := by simp [hax]
        simp [List.filter_cons, hc, List.find?_cons, h2, ih]

/-- `delete_room` on one room preserves `find_by_id` of any other room. -/
theorem find_by_id_delete_room_other (db : DB) (y x : Nat) (hxy : x ≠ y) :
    Room.find_by_id (Room.delete_room db y) x = Room.find_by_id db x := by
  rw [Room.delete_room]
  split
  · rfl
  · rw [Room.find_by_id, Room.find_by_id]
    exact find_filter_ne db.rooms x y hxy

/-- `delete_room` on one room preserves the demo status of any other. -/
theorem is_demo_room_delete_room_other (db : DB) (y x : Nat) (hxy : x ≠ y) :
    Room.is_demo_room (Room.delete_room db y) x = Room.is_demo_room db x := by
  rw [Room.is_demo_room, Room.is_demo_room, find_by_id_delete_room_other db y x hxy]

/-- Independence: in a duplicate-free input every existing non-demo room
id ends up deleted, whatever the other ids are. -/
theorem bulk_destroyable_deleted (l : List Nat) : ∀ (db : DB), l.Nodup →
    ∀ x ∈ l, ∀ rx : RoomRow, Room.find_by_id db x = some rx →
      Room.is_demo_room db x = false →
      x ∈ (List.foldl bulk_delete_step (⟨[], [], []⟩, db) l).1.deleted := by
  induction l with
  | nil => intro db _ x hx; simp at hx
  | cons a l ih =>
    intro db hnd x hx rx hfx hdx
    obtain ⟨ha, hnd'⟩ := List.nodup_cons.mp hnd
    rw [List.foldl_cons]
    rcases List.mem_cons.mp hx with rfl | hxl
    · simp only [bulk_delete_step, hfx, hdx, Bool.false_eq_true, if_false, List.nil_append]
      have hm := bulk_mono l ⟨[x], [], []⟩ (Room.delete_room db x)
      exact hm.1 x (by simp)
    · have hxa : x ≠ a := fun h => ha (h ▸ hxl)
      cases hfinda : Room.find_by_id db a with
      | none =>
        simp only [bulk_delete_step, hfinda, List.nil_append]
        obtain ⟨h1, -, -, -⟩ := bulk_foldl_acc l ⟨[], [], [a]⟩ db
        rw [h1]
        simp only [List.nil_append]
        exact ih db hnd' x hxl rx hfx hdx
      | some ra =>
        cases hdemoa : Room.is_demo_room db a with
        | true =>
          simp only [bulk_delete_step, hfinda, hdemoa, if_true, List.nil_append]
          obtain ⟨h1, -, -, -⟩ := bulk_foldl_acc l ⟨[], [a], []⟩ db
          rw [h1]
          simp only [List.nil_append]
          exact ih db hnd' x hxl rx hfx hdx
        | false =>
          simp only [bulk_delete_step, hfinda, hdemoa, Bool.false_eq_true, if_false,
            List.nil_append]
          obtain ⟨h1, -, -, -⟩ := bulk_foldl_acc l ⟨[a], [], []⟩ (Room.delete_room db a)
          rw [h1]
          have hf' : Room.find_by_id (Room.delete_room db a) x = some rx := by
            rw [find_by_id_delete_room_other db a x hxa]
            exact hfx
          have hd' : Room.is_demo_room (Room.delete_room db a) x = false := by
            rw [is_demo_room_delete_room_other db a x hxa]
            exact hdx
          exact List.mem_append_right _
            (ih (Room.delete_room db a) hnd' x hxl rx hf' hd')

/-- Claim C7, amended: bulk delete reports each input occurrence in
exactly one bucket — the bucket sizes sum to the input length, the three
buckets together hold exactly the input ids, and for a duplicate-free
input the buckets are pairwise disjoint (an input with a repeated id can
report it in two buckets; see the counterexample); processing is
independent — in a duplicate-free input every existing non-demo id is
deleted regardless of what the other ids are. -/
theorem bulk_delete_partition (db : DB) (room_ids : List Nat) :
    ((bulk_delete_rooms db room_ids).1.deleted.length
      + (bulk_delete_rooms db room_ids).1.protectedIds.length
      + (bulk_delete_rooms db room_ids).1.failed.length = room_ids.length)
    ∧ (∀ x : Nat,
        (x ∈ (bulk_delete_rooms db room_ids).1.deleted
          ∨ x ∈ (bulk_delete_rooms db room_ids).1.protectedIds
          ∨ x ∈ (bulk_delete_rooms db room_ids).1.failed) ↔ x ∈ room_ids)
    ∧ (room_ids.Nodup → ∀ x : Nat,
        ¬(x ∈ (bulk_delete_rooms db room_ids).1.deleted
          ∧ x ∈ (bulk_delete_rooms db room_ids).1.protectedIds)
        ∧ ¬(x ∈ (bulk_delete_rooms db room_ids).1.deleted
          ∧ x ∈ (bulk_delete_rooms db room_ids).1.failed)
        ∧ ¬(x ∈ (bulk_delete_rooms db room_ids).1.protectedIds
          ∧ x ∈ (bulk_delete_rooms db room_ids).1.failed))
    ∧ (room_ids.Nodup → ∀ x ∈ room_ids, ∀ rx : RoomRow,
        Room.find_by_id db x = some rx → Room.is_demo_room db x = false →
        x ∈ (bulk_delete_rooms db room_ids).1.deleted) := by
  simp only [bulk_delete_rooms]
  refine ⟨?_, ?_, ?_, ?_⟩
  · have h := bulk_foldl_len room_ids ⟨[], [], []⟩ db
    simpa using h
  · intro x
    constructor
    · rintro (h | h | h)
      · rcases (bulk_buckets_subset room_ids ⟨[], [], []⟩ db x).1 h with h' | h'
        · simp at h'
        · exact h'
      · rcases (bulk_buckets_subset room_ids ⟨[], [], []⟩ db x).2.1 h with h' | h'
        · simp at h'
        · exact h'
      · rcases (bulk_buckets_subset room_ids ⟨[], [], []⟩ db x).2.2 h with h' | h'
        · simp at h'
        · exact h'
    · intro hx
      exact bulk_input_in_buckets room_ids ⟨[], [], []⟩ db x hx
  · intro hnd x
    exact bulk_disjoint room_ids db hnd x
  · intro hnd x hx rx hf hd
    exact bulk_destroyable_deleted room_ids db hnd x hx rx hf hd

/-- Witness for the amended claim C7 at a concrete input: the mixed list
[demo room 1, destroyable room 2, nonexistent 99] over `dbC7` partitions
1 protected, 1 deleted, 1 failed. -/
theorem bulk_delete_partition_witness :
    [1, 2, 99].Nodup
    ∧ Room.find_by_id dbC7 2 = some roomA
    ∧ Room.is_demo_room dbC7 2 = false
    ∧ (bulk_delete_rooms dbC7 [1, 2, 99]).1.deleted.length
        + (bulk_delete_rooms dbC7 [1, 2, 99]).1.protectedIds.length
        + (bulk_delete_rooms dbC7 [1, 2, 99]).1.failed.length = 3
    ∧ 2 ∈ (bulk_delete_rooms dbC7 [1, 2, 99]).1.deleted :=
  ⟨by decide, by decide, by decide,
    by
      have h := (bulk_delete_partition dbC7 [1, 2, 99]).1
      simpa using h,
    (bulk_delete_partition dbC7 [1, 2, 99]).2.2.2 (by decide) 2 (by decide) roomA
      (by decide) (by decide)⟩
